import Mathlib

/-!
Verification of the hybrid text-search core of the snap-and-describe app:
text normalization (`TextNormalizationService`), the regional-synonym
index and service (`data/synonyms.ts`, `SynonymService`), the synonym
match strategy, the two shipped variants of `HybridSearchEngine.search`,
and `QueryEngine.executeQuery`.

Strings are modelled as Lean `String`s (lists of Unicode scalars).
JavaScript string primitives used by the code (trim, toLowerCase,
NFD + combining-mark stripping, the `\w`/`\s` character classes,
`includes`/`indexOf`/`startsWith`) are embedded as executable functions
over `List Char`; the Unicode tables cover the character repertoire that
appears in the repository's data (ASCII plus accented Latin letters).
Scores are exact rationals (`ℚ`); JS decimal literals such as `0.95`
are written `mkRat 95 100`.  The stable JS array sort with comparator
`(a, b) => b.score - a.score` is modelled by the stable
`List.insertionSort` with the corresponding total preorder.
-/

set_option maxRecDepth 80000

/-- JS whitespace class (`\s`, `String.prototype.trim`): the whitespace
characters that can occur in this code base's data, plus NBSP. -/
def jsWhitespace (c : Char) : Bool :=
  c = ' ' || c = '\t' || c = '\n' || c = '\r' || c = '\x0b' || c = '\x0c' || c = ' '

/-- Lowercasing table for `String.prototype.toLowerCase`, restricted to the
repertoire used by the repository: ASCII letters and the uppercase accented
Latin letters appearing in the vocabulary data. -/
def lowerTable : List (Char × Char) :=
  [('A','a'),('B','b'),('C','c'),('D','d'),('E','e'),('F','f'),('G','g'),
   ('H','h'),('I','i'),('J','j'),('K','k'),('L','l'),('M','m'),('N','n'),
   ('O','o'),('P','p'),('Q','q'),('R','r'),('S','s'),('T','t'),('U','u'),
   ('V','v'),('W','w'),('X','x'),('Y','y'),('Z','z'),
   ('Á','á'),('É','é'),('Í','í'),('Ó','ó'),('Ú','ú'),('Ü','ü'),('Ñ','ñ'),
   ('Ê','ê'),('Ã','ã'),('Õ','õ'),('Ç','ç'),('À','à'),('È','è'),('Ô','ô')]

/-- JS `toLowerCase` on a single character. -/
def jsToLower (c : Char) : Char :=
  ((lowerTable.find? (fun p => p.1 = c)).map (fun p => p.2)).getD c

/-- JS `toLowerCase` on a string. -/
def jsToLowerStr (s : String) : String :=
  ⟨s.data.map jsToLower⟩

/-- Unicode combining marks in the range `̀`–`ͯ` stripped by
`TextNormalizationService` after NFD decomposition. -/
def isCombiningMark (c : Char) : Bool :=
  0x300 ≤ c.toNat && c.toNat ≤ 0x36F

/-- NFD decompositions (base letter + combining mark) for the precomposed
Latin letters used in the repository's data; every other character is its
own decomposition. -/
def accentTable : List (Char × List Char) :=
  [('á',['a','́']),('é',['e','́']),('í',['i','́']),
   ('ó',['o','́']),('ú',['u','́']),('ü',['u','̈']),
   ('ñ',['n','̃']),('ê',['e','̂']),('ã',['a','̃']),
   ('õ',['o','̃']),('ç',['c','̧']),('à',['a','̀']),
   ('è',['e','̀']),('ô',['o','̂']),('ä',['a','̈']),
   ('ë',['e','̈']),('ï',['i','̈']),('ö',['o','̈']),
   ('Á',['A','́']),('É',['E','́']),('Í',['I','́']),
   ('Ó',['O','́']),('Ú',['U','́']),('Ü',['U','̈']),
   ('Ñ',['N','̃'])]

/-- NFD decomposition of a single character (identity off the table). -/
def nfdChar (c : Char) : List Char :=
  ((accentTable.find? (fun p => p.1 = c)).map (fun p => p.2)).getD [c]

/-- JS word-character class `\w` = `[A-Za-z0-9_]`. -/
def isWordChar (c : Char) : Bool :=
  ('a' ≤ c && c ≤ 'z') || ('A' ≤ c && c ≤ 'Z') || ('0' ≤ c && c ≤ '9') || c = '_'

/-- JS `String.prototype.trim`: drop leading and trailing whitespace. -/
def trimJS (l : List Char) : List Char :=
  ((l.dropWhile jsWhitespace).reverse.dropWhile jsWhitespace).reverse

/-- JS `replace(/\s+/g, ' ')`: every maximal whitespace run becomes one
single space. -/
def collapseWs : List Char → List Char
  | [] => []
  | [c] => [if jsWhitespace c then ' ' else c]
  | c :: d :: tl =>
    if jsWhitespace c && jsWhitespace d then collapseWs (d :: tl)
    else (if jsWhitespace c then ' ' else c) :: collapseWs (d :: tl)

/-- First index at which `pat` occurs as a contiguous sublist of `l`
(JS `String.prototype.indexOf`), `none` when absent. -/
def firstOcc (pat : List Char) : List Char → Option Nat
  | [] => if pat = [] then some 0 else none
  | c :: tl => if pat.isPrefixOf (c :: tl) then some 0 else (firstOcc pat tl).map (· + 1)

/-- JS `String.prototype.includes`. -/
def jsIncludes (s sub : String) : Bool :=
  (firstOcc sub.data s.data).isSome

/-- JS `String.prototype.indexOf` (only called on strings where the
pattern occurs). -/
def jsIndexOf (s sub : String) : Nat :=
  (firstOcc sub.data s.data).getD 0

/-- JS `String.prototype.startsWith`. -/
def jsStartsWith (s pre : String) : Bool :=
  pre.data.isPrefixOf s.data

/-- NormalizationOptions of `TextNormalizationService` (part_003 lines 6-11). -/
structure NormalizationOptions where
  removeAccents : Bool
  toLowerCase : Bool
  removeSpecialChars : Bool
  trimWhitespace : Bool
deriving DecidableEq

/-- DEFAULT_OPTIONS of `TextNormalizationService` (part_003 lines 14-19):
all four toggles on. -/
def DEFAULT_OPTIONS : NormalizationOptions :=
  ⟨true, true, true, true⟩

/-- Character-list core of `TextNormalizationService.normalize`
(part_003 lines 24-56): optional trim, optional lowercase, optional NFD
decomposition plus combining-mark stripping, optional removal of
characters that are neither `\w` nor `\s`, then the unconditional
collapse of whitespace runs to single spaces.  Empty input falls through
the same pipeline and yields the empty string, matching the early
`if (!text) return ''`. -/
def trimStage (o : NormalizationOptions) (l : List Char) : List Char :=
  if o.trimWhitespace then trimJS l else l

def lowerStage (o : NormalizationOptions) (l : List Char) : List Char :=
  if o.toLowerCase then l.map jsToLower else l

def accentStage (o : NormalizationOptions) (l : List Char) : List Char :=
  if o.removeAccents then (l.flatMap nfdChar).filter (fun c => !isCombiningMark c) else l

def specialStage (o : NormalizationOptions) (l : List Char) : List Char :=
  if o.removeSpecialChars then l.filter (fun c => isWordChar c || jsWhitespace c) else l

def normalizeL (o : NormalizationOptions) (l : List Char) : List Char :=
  collapseWs (specialStage o (accentStage o (lowerStage o (trimStage o l))))

/-- `TextNormalizationService.normalize(text, options)`; callers that pass
no options (or the extra unused `'standard'` profile argument) get the
defaults. -/
def TextNormalizationService.normalize (text : String)
    (options : NormalizationOptions := DEFAULT_OPTIONS) : String :=
  ⟨normalizeL options text.data⟩

/-! ### Structure of normalized output

The development below characterises the output of `normalizeL`: every
character of the output is a fixed point of each enabled per-character
transformation, and the output has no two adjacent whitespace characters,
all of its whitespace being a plain space.  A second normalization pass is
then exactly a second trim (and the identity when trimming is off). -/

/-- No two adjacent whitespace characters. -/
def NoWsRun (l : List Char) : Prop :=
  l.Chain' (fun a b => ¬(jsWhitespace a = true ∧ jsWhitespace b = true))

/-- All whitespace in `l` is the plain space character. -/
def WsIsSpace (l : List Char) : Prop :=
  ∀ x ∈ l, jsWhitespace x = true → x = ' '

theorem collapseWs_mem {x : Char} : ∀ {l : List Char}, x ∈ collapseWs l → x = ' ' ∨ x ∈ l
  | [], h => by simp [collapseWs] at h
  | [c], h => by
    by_cases hc : jsWhitespace c = true <;> simp [collapseWs, hc] at h <;> simp [h]
  | c :: d :: tl, h => by
    rw [collapseWs] at h
    by_cases hcd : (jsWhitespace c && jsWhitespace d) = true
    · rw [if_pos hcd] at h
      rcases collapseWs_mem h with h1 | h1
      · exact Or.inl h1
      · exact Or.inr (List.mem_cons_of_mem _ h1)
    · rw [if_neg hcd] at h
      rcases List.mem_cons.1 h with h1 | h1
      · by_cases hc : jsWhitespace c = true <;> simp [hc] at h1 <;> simp [h1]
      · rcases collapseWs_mem h1 with h2 | h2
        · exact Or.inl h2
        · exact Or.inr (List.mem_cons_of_mem _ h2)

theorem collapseWs_wsIsSpace : ∀ {l : List Char}, WsIsSpace (collapseWs l)
  | [] => by intro x hx; simp [collapseWs] at hx
  | [c] => by
    intro x hx hws
    by_cases hc : jsWhitespace c = true <;> simp [collapseWs, hc] at hx
    · simp [hx]
    · rw [hx] at hws; exact absurd hws hc
  | c :: d :: tl => by
    intro x hx hws
    rw [collapseWs] at hx
    by_cases hcd : (jsWhitespace c && jsWhitespace d) = true
    · rw [if_pos hcd] at hx
      exact collapseWs_wsIsSpace x hx hws
    · rw [if_neg hcd] at hx
      rcases List.mem_cons.1 hx with h1 | h1
      · by_cases hc : jsWhitespace c = true <;> simp [hc] at h1
        · simp [h1]
        · rw [h1] at hws; exact absurd hws (by simp [hc])
      · exact collapseWs_wsIsSpace x h1 hws

theorem collapseWs_head?_of_not_ws {d : Char} (hd : jsWhitespace d = false) :
    ∀ (tl : List Char), (collapseWs (d :: tl)).head? = some d := by
  intro tl
  cases tl with
  | nil => simp [collapseWs, hd]
  | cons e tl2 => simp [collapseWs, hd]

theorem collapseWs_noWsRun : ∀ {l : List Char}, NoWsRun (collapseWs l)
  | [] => by simp [collapseWs, NoWsRun]
  | [c] => by simp [collapseWs, NoWsRun]
  | c :: d :: tl => by
    rw [NoWsRun, collapseWs]
    by_cases hcd : (jsWhitespace c && jsWhitespace d) = true
    · rw [if_pos hcd]; exact collapseWs_noWsRun
    · rw [if_neg hcd]
      rw [List.chain'_cons']
      refine ⟨?_, collapseWs_noWsRun⟩
      intro y hy
      by_cases hd : jsWhitespace d = true
      · have hc : jsWhitespace c = false := by
          cases hc : jsWhitespace c
          · rfl
          · exact absurd (by simp [hc, hd]) hcd
        rw [if_neg (by simp [hc])]
        intro hcontra
        rw [hc] at hcontra
        exact absurd hcontra.1 (by simp)
      · have hd' : jsWhitespace d = false := by simpa using hd
        rw [collapseWs_head?_of_not_ws hd' tl] at hy
        have hyd : y = d := by simpa using hy.symm
        intro hcontra
        rw [hyd] at hcontra
        exact absurd hcontra.2 (by simp [hd'])

theorem collapseWs_eq_self : ∀ {l : List Char}, NoWsRun l → WsIsSpace l → collapseWs l = l
  | [], _, _ => rfl
  | [c], _, hsp => by
    by_cases hc : jsWhitespace c = true
    · simp [collapseWs, hc, hsp c (by simp) hc]
    · simp [collapseWs, hc]
  | c :: d :: tl, hch, hsp => by
    have hch' : NoWsRun (d :: tl) := (List.chain'_cons'.1 hch).2
    have hne : ¬(jsWhitespace c = true ∧ jsWhitespace d = true) :=
      (List.chain'_cons'.1 hch).1 d (by simp)
    have hcd : (jsWhitespace c && jsWhitespace d) ≠ true := by
      intro h; exact hne (by simpa [Bool.and_eq_true] using h)
    have hsp' : WsIsSpace (d :: tl) := fun x hx => hsp x (List.mem_cons_of_mem _ hx)
    rw [collapseWs, if_neg hcd, collapseWs_eq_self hch' hsp']
    by_cases hc : jsWhitespace c = true
    · simp [hc, hsp c (by simp) hc]
    · simp [hc]

theorem trimJS_subset {l : List Char} : trimJS l ⊆ l := by
  intro x hx
  rw [trimJS] at hx
  rw [List.mem_reverse] at hx
  have h1 := (List.dropWhile_suffix (l := (l.dropWhile jsWhitespace).reverse) jsWhitespace).sublist.subset hx
  rw [List.mem_reverse] at h1
  exact (List.dropWhile_suffix jsWhitespace).sublist.subset h1

theorem noWsRun_imp_flip {l : List Char} (h : NoWsRun l) :
    l.Chain' (flip (fun a b => ¬(jsWhitespace a = true ∧ jsWhitespace b = true))) := by
  exact List.Chain'.imp (fun a b hab => fun hc => hab ⟨hc.2, hc.1⟩) h

theorem trimJS_noWsRun {l : List Char} (h : NoWsRun l) : NoWsRun (trimJS l) := by
  have h1 : NoWsRun (l.dropWhile jsWhitespace) :=
    List.Chain'.suffix h (List.dropWhile_suffix jsWhitespace)
  have h2 : NoWsRun (l.dropWhile jsWhitespace).reverse :=
    List.chain'_reverse.2 (noWsRun_imp_flip h1)
  have h3 : NoWsRun ((l.dropWhile jsWhitespace).reverse.dropWhile jsWhitespace) :=
    List.Chain'.suffix h2 (List.dropWhile_suffix jsWhitespace)
  exact List.chain'_reverse.2 (noWsRun_imp_flip h3)

theorem trimJS_wsIsSpace {l : List Char} (h : WsIsSpace l) : WsIsSpace (trimJS l) :=
  fun x hx => h x (trimJS_subset hx)

theorem lowerTable_snd_not_key :
    ∀ p ∈ lowerTable, lowerTable.find? (fun q => q.1 = p.2) = none := by decide

theorem jsToLower_fix (c : Char) : jsToLower (jsToLower c) = jsToLower c := by
  cases h : lowerTable.find? (fun q => q.1 = c) with
  | none =>
    have hc : jsToLower c = c := by simp [jsToLower, h]
    rw [hc]; exact hc
  | some p =>
    have hp := List.mem_of_find?_eq_some h
    have hc : jsToLower c = p.2 := by simp [jsToLower, h]
    rw [hc]
    simp [jsToLower, lowerTable_snd_not_key p hp]

theorem accentTable_fst_not_ws : ∀ p ∈ accentTable, jsWhitespace p.1 = false := by decide

theorem accentTable_fst_not_lower_key :
    ∀ p ∈ accentTable, jsToLower p.1 = p.1 →
      ∀ d ∈ p.2, isCombiningMark d = true ∨ jsToLower d = d := by decide

theorem accentTable_snd_not_key :
    ∀ p ∈ accentTable, ∀ d ∈ p.2, isCombiningMark d = true ∨
      accentTable.find? (fun q => q.1 = d) = none := by decide

theorem nfdChar_of_find?_none {c : Char}
    (h : accentTable.find? (fun q => q.1 = c) = none) : nfdChar c = [c] := by
  simp [nfdChar, h]

theorem nfdChar_mem_cases {c d : Char} (hd : d ∈ nfdChar c) :
    (accentTable.find? (fun q => q.1 = c) = none ∧ d = c) ∨
    (∃ p ∈ accentTable, p.1 = c ∧ d ∈ p.2) := by
  rw [nfdChar] at hd
  cases h : accentTable.find? (fun q => q.1 = c) with
  | none => rw [h] at hd; simp at hd; exact Or.inl ⟨rfl, hd⟩
  | some p =>
    rw [h] at hd
    simp only [Option.map_some', Option.getD_some] at hd
    have hp := List.mem_of_find?_eq_some h
    have hpc : p.1 = c := by simpa using List.find?_some h
    exact Or.inr ⟨p, hp, hpc, hd⟩

/-- A character untouched by every per-character transformation that the
option set enables. -/
structure InertChar (o : NormalizationOptions) (c : Char) : Prop where
  low : o.toLowerCase = true → jsToLower c = c
  acc : o.removeAccents = true → nfdChar c = [c] ∧ isCombiningMark c = false
  spc : o.removeSpecialChars = true → (isWordChar c || jsWhitespace c) = true

theorem inertChar_space (o : NormalizationOptions) : InertChar o ' ' := by
  refine ⟨fun _ => ?_, fun _ => ?_, fun _ => ?_⟩ <;> decide

theorem lowerStage_fix {o : NormalizationOptions} {l : List Char} {c : Char}
    (ho : o.toLowerCase = true) (hc : c ∈ lowerStage o l) : jsToLower c = c := by
  rw [lowerStage, if_pos ho] at hc
  rcases List.mem_map.1 hc with ⟨a, _, rfl⟩
  exact jsToLower_fix a

theorem accentStage_subset_of_off {o : NormalizationOptions} {l : List Char}
    (ho : o.removeAccents = false) : accentStage o l = l := by
  rw [accentStage, ho]; rfl

theorem accentStage_mem {o : NormalizationOptions} {l : List Char} {c : Char}
    (ho : o.removeAccents = true) (hc : c ∈ accentStage o l) :
    isCombiningMark c = false ∧ ∃ a ∈ l, c ∈ nfdChar a := by
  rw [accentStage, if_pos ho] at hc
  rw [List.mem_filter] at hc
  rcases hc with ⟨hc1, hc2⟩
  rcases List.mem_flatMap.1 hc1 with ⟨a, ha, hca⟩
  exact ⟨by simpa using hc2, a, ha, hca⟩

theorem accentStage_acc {o : NormalizationOptions} {l : List Char} {c : Char}
    (ho : o.removeAccents = true) (hc : c ∈ accentStage o l) :
    nfdChar c = [c] ∧ isCombiningMark c = false := by
  rcases accentStage_mem ho hc with ⟨hmark, a, _, hca⟩
  refine ⟨?_, hmark⟩
  rcases nfdChar_mem_cases hca with ⟨hnone, rfl⟩ | ⟨p, hp, _, hdp⟩
  · exact nfdChar_of_find?_none hnone
  · rcases accentTable_snd_not_key p hp c hdp with h | h
    · rw [h] at hmark; exact absurd hmark (by simp)
    · exact nfdChar_of_find?_none h

theorem accentStage_pres_low {o : NormalizationOptions} {l : List Char} {c : Char}
    (hl : ∀ x ∈ l, jsToLower x = x) (hc : c ∈ accentStage o l) : jsToLower c = c := by
  by_cases ho : o.removeAccents = true
  · rcases accentStage_mem ho hc with ⟨hmark, a, ha, hca⟩
    rcases nfdChar_mem_cases hca with ⟨_, heq⟩ | ⟨p, hp, hpa, hdp⟩
    · rw [heq]; exact hl a ha
    · rcases accentTable_fst_not_lower_key p hp (by rw [hpa]; exact hl a ha) c hdp with h | h
      · rw [h] at hmark; exact absurd hmark (by simp)
      · exact h
  · rw [accentStage_subset_of_off (by simpa using ho)] at hc
    exact hl c hc

theorem specialStage_subset {o : NormalizationOptions} {l : List Char} {c : Char}
    (hc : c ∈ specialStage o l) : c ∈ l := by
  rw [specialStage] at hc
  by_cases ho : o.removeSpecialChars = true
  · rw [if_pos ho] at hc; exact (List.mem_filter.1 hc).1
  · rw [if_neg ho] at hc; exact hc

theorem specialStage_spc {o : NormalizationOptions} {l : List Char} {c : Char}
    (ho : o.removeSpecialChars = true) (hc : c ∈ specialStage o l) :
    (isWordChar c || jsWhitespace c) = true := by
  rw [specialStage, if_pos ho] at hc
  exact (List.mem_filter.1 hc).2

theorem normalizeL_inert {o : NormalizationOptions} {l : List Char} :
    ∀ c ∈ normalizeL o l, InertChar o c := by
  intro c hc
  rw [normalizeL] at hc
  rcases collapseWs_mem hc with rfl | hc4
  · exact inertChar_space o
  refine ⟨?_, ?_, ?_⟩
  · intro ho
    refine accentStage_pres_low ?_ (specialStage_subset hc4)
    intro x hx
    exact lowerStage_fix ho hx
  · intro ho
    exact accentStage_acc ho (specialStage_subset hc4)
  · intro ho
    exact specialStage_spc ho hc4

theorem normalizeL_noWsRun (o : NormalizationOptions) (l : List Char) :
    NoWsRun (normalizeL o l) := by
  rw [normalizeL]; exact collapseWs_noWsRun

theorem normalizeL_wsIsSpace (o : NormalizationOptions) (l : List Char) :
    WsIsSpace (normalizeL o l) := by
  rw [normalizeL]; exact collapseWs_wsIsSpace

theorem lowerStage_id {o : NormalizationOptions} {l : List Char}
    (h : o.toLowerCase = true → ∀ x ∈ l, jsToLower x = x) : lowerStage o l = l := by
  rw [lowerStage]
  by_cases ho : o.toLowerCase = true
  · rw [if_pos ho]
    rw [List.map_congr_left (h ho)]
    exact List.map_id l
  · rw [if_neg ho]

theorem flatMap_nfd_id {l : List Char} (h : ∀ x ∈ l, nfdChar x = [x]) :
    l.flatMap nfdChar = l := by
  induction l with
  | nil => rfl
  | cons a tl ih =>
    rw [List.flatMap_cons, h a (by simp), ih (fun x hx => h x (List.mem_cons_of_mem _ hx))]
    rfl

theorem accentStage_id {o : NormalizationOptions} {l : List Char}
    (h : o.removeAccents = true → ∀ x ∈ l, nfdChar x = [x] ∧ isCombiningMark x = false) :
    accentStage o l = l := by
  rw [accentStage]
  by_cases ho : o.removeAccents = true
  · rw [if_pos ho]
    rw [flatMap_nfd_id (fun x hx => (h ho x hx).1)]
    rw [List.filter_eq_self]
    intro a ha
    simp [(h ho a ha).2]
  · rw [if_neg ho]

theorem specialStage_id {o : NormalizationOptions} {l : List Char}
    (h : o.removeSpecialChars = true → ∀ x ∈ l, (isWordChar x || jsWhitespace x) = true) :
    specialStage o l = l := by
  rw [specialStage]
  by_cases ho : o.removeSpecialChars = true
  · rw [if_pos ho]
    exact List.filter_eq_self.2 (h ho)
  · rw [if_neg ho]

/-- A second normalization pass over the output of a first pass only
re-trims: every other stage is the identity there. -/
theorem normalizeL_normalizeL (o : NormalizationOptions) (l : List Char) :
    normalizeL o (normalizeL o l) = trimStage o (normalizeL o l) := by
  have hinert := @normalizeL_inert o l
  have hrun := normalizeL_noWsRun o l
  have hsp := normalizeL_wsIsSpace o l
  have htsub : ∀ x ∈ trimStage o (normalizeL o l), x ∈ normalizeL o l := by
    intro x hx
    rw [trimStage] at hx
    by_cases ht : o.trimWhitespace = true
    · rw [if_pos ht] at hx; exact trimJS_subset hx
    · rw [if_neg ht] at hx; exact hx
  have htrun : NoWsRun (trimStage o (normalizeL o l)) := by
    rw [trimStage]
    by_cases ht : o.trimWhitespace = true
    · rw [if_pos ht]; exact trimJS_noWsRun hrun
    · rw [if_neg ht]; exact hrun
  have htsp : WsIsSpace (trimStage o (normalizeL o l)) :=
    fun x hx => hsp x (htsub x hx)
  conv_lhs => rw [normalizeL]
  rw [lowerStage_id (fun ho x hx => (hinert x (htsub x hx)).low ho)]
  rw [accentStage_id (fun ho x hx => (hinert x (htsub x hx)).acc ho)]
  rw [specialStage_id (fun ho x hx => (hinert x (htsub x hx)).spc ho)]
  exact collapseWs_eq_self htrun htsp


/-! ### Regional synonym database (`src/data/synonyms.ts`)

The repository contains three revisions of `data/synonyms.ts`.
`synonymsData₁` is the revision keyed to real product ids
(`src/unnamed/part_001`, the one cited by the claims for
`buildSearchIndex`); `synonymsData₂` is the earlier Spanish-canonical
revision (second half of `src/unnamed/part_002`, the one described in
`docs/prompts/synonym-system-implementation.md`).  Both are built into
lookup indexes by the same `buildSearchIndex` code. -/

/-- regionInfo of a SynonymEntry. -/
structure RegionInfo where
  region : String
  country : String
  language : Option String
deriving DecidableEq

/-- SynonymEntry (part_001 lines 6-15). -/
structure SynonymEntry where
  canonical : String
  productId : String
  confidence : ℚ
  regionInfo : Option RegionInfo
deriving DecidableEq

/-- One vocabulary group of `synonymsData`: a canonical term, the product
id it maps to, and its synonyms with their region lists.  (For the v2
dataset the JS code generates `product_N` ids from a counter; those ids
are written out explicitly here.) -/
structure SynGroup where
  canonical : String
  productId : String
  synonyms : List (String × List String)

/-- JS object / `Map` insertion: overwrite in place when the key exists,
else append (both preserve insertion order of keys). -/
def objSet {α : Type} (m : List (String × α)) (k : String) (v : α) : List (String × α) :=
  if m.any (fun p => p.1 = k) then m.map (fun p => if p.1 = k then (k, v) else p)
  else m ++ [(k, v)]

/-- JS object / `Map` key lookup. -/
def objGet {α : Type} (m : List (String × α)) (k : String) : Option α :=
  (m.find? (fun p => p.1 = k)).map (fun p => p.2)

/-- getCountryName helper (part_001 lines 303-312). -/
def getCountryName (regionCode : String) : String :=
  if regionCode = "AR" then "Argentina" else if regionCode = "MX" then "México"
  else if regionCode = "ES" then "España" else if regionCode = "CO" then "Colombia"
  else if regionCode = "EC" then "Ecuador" else if regionCode = "PE" then "Perú"
  else if regionCode = "CL" then "Chile" else if regionCode = "VE" then "Venezuela"
  else if regionCode = "UY" then "Uruguay" else if regionCode = "PY" then "Paraguay"
  else if regionCode = "DO" then "República Dominicana" else if regionCode = "GT" then "Guatemala"
  else if regionCode = "SV" then "El Salvador" else if regionCode = "BR" then "Brasil"
  else if regionCode = "US" then "Estados Unidos" else if regionCode = "GB" then "Reino Unido"
  else regionCode

/-- buildSearchIndex (part_001 lines 263-300): for each group, insert the
lowercased canonical (confidence 1.0, no region info), then each
lowercased synonym (confidence 0.9, region info from the first listed
region; language `es` when the code has two letters, else `en`). -/
def buildSearchIndex (groups : List SynGroup) : List (String × SynonymEntry) :=
  groups.foldl (fun idx g =>
    let idx := objSet idx (jsToLowerStr g.canonical)
      ⟨g.canonical, g.productId, 1, none⟩
    g.synonyms.foldl (fun idx sy =>
      objSet idx (jsToLowerStr sy.1)
        ⟨g.canonical, g.productId, mkRat 9 10,
          some ⟨sy.2.headD "", getCountryName (sy.2.headD ""),
            some (if (sy.2.headD "").length = 2 then "es" else "en")⟩⟩) idx) []

/-- synonymsData of `src/unnamed/part_001` (the revision mapped to real
product ids). -/
def synonymsData₁ : List SynGroup :=
  [⟨"avocado", "avocado_001",
    [("palta", ["AR", "CL", "PE", "UY"]),
     ("aguacate", ["MX", "ES", "CO", "VE", "EC"])]⟩,
   ⟨"sweet potato", "sweet_potato_006",
    [("batata", ["AR", "UY"]), ("boniato", ["ES"]), ("camote", ["MX", "PE"]),
     ("ñame", ["CO", "VE"]), ("papa dulce", ["CL", "EC"])]⟩,
   ⟨"potato chips", "chips_009",
    [("papas fritas", ["MX", "CO", "VE", "EC"]), ("patatas fritas", ["ES"]),
     ("papitas", ["AR", "CL", "UY"]), ("chips", ["US", "GB"])]⟩,
   ⟨"broccoli", "broccoli_001",
    [("brócoli", ["MX", "ES", "CO", "AR"]), ("brécol", ["ES"])]⟩,
   ⟨"kale", "kale_005",
    [("col rizada", ["ES", "MX", "CO"]), ("col crespa", ["AR", "CL"]),
     ("berza", ["ES"]), ("acelga silvestre", ["EC", "PE"])]⟩,
   ⟨"chia seeds", "chia_seeds_008",
    [("semillas de chía", ["MX", "ES", "CO", "AR"]), ("chía", ["MX", "GT", "SV"])]⟩,
   ⟨"greek yogurt", "greek_yogurt_007",
    [("yogur griego", ["ES", "MX", "CO", "AR"]), ("yogurt griego", ["MX", "VE"]),
     ("yoghurt griego", ["AR", "UY"])]⟩,
   ⟨"quinoa", "quinoa_002",
    [("quinua", ["PE", "BO", "EC"]), ("kinoa", ["CL"]), ("quínoa", ["ES"])]⟩,
   ⟨"blueberries", "blueberries_005",
    [("arándanos", ["ES", "MX", "CO", "AR"]), ("arándanos azules", ["ES"]),
     ("mirtilo", ["AR", "UY"]), ("blueberry", ["US", "GB"])]⟩,
   ⟨"carrot", "carrot_004",
    [("zanahoria", ["ES", "MX", "CO", "AR"]), ("carlota", ["VE"]), ("daucus", ["ES"])]⟩,
   ⟨"banana", "banana_010",
    [("banana", ["AR", "UY", "PY"]), ("banano", ["CO", "VE", "EC", "PE"]),
     ("plátano", ["MX", "ES", "GT", "SV", "HN"]), ("cambur", ["VE"]),
     ("guineo", ["DO", "PR", "CU"])]⟩,
   ⟨"apple", "apple_002",
    [("manzana", ["MX", "ES", "CO", "AR", "VE", "EC"]), ("poma", ["CL"])]⟩,
   ⟨"spinach", "spinach_003",
    [("espinaca", ["MX", "ES", "CO", "AR", "VE", "EC"]), ("espinafre", ["BR"])]⟩,
   ⟨"cauliflower", "cauliflower_006",
    [("coliflor", ["MX", "ES", "CO", "AR", "VE", "EC"]), ("couve-flor", ["BR"])]⟩,
   ⟨"brussels sprouts", "brussels_007",
    [("coles de bruselas", ["ES", "MX", "CO", "AR"]),
     ("repollitas de bruselas", ["AR", "CL"]), ("couvinha de bruxelas", ["BR"])]⟩,
   ⟨"pear", "pear_008",
    [("pera", ["MX", "ES", "CO", "AR", "VE", "EC"]), ("pêra", ["BR"])]⟩,
   ⟨"orange", "orange_009",
    [("naranja", ["MX", "ES", "CO", "AR", "VE", "EC"]), ("china", ["PR", "DO"]),
     ("laranja", ["BR"])]⟩,
   ⟨"salmon", "salmon_003",
    [("salmón", ["MX", "ES", "CO", "AR", "VE", "EC"]), ("salmão", ["BR"])]⟩,
   ⟨"almonds", "almonds_004",
    [("almendras", ["MX", "ES", "CO", "AR", "VE", "EC"]), ("amêndoas", ["BR"])]⟩,
   ⟨"popcorn", "chips_009",
    [("palomitas de maíz", ["MX", "ES", "CO", "VE"]), ("palomitas", ["MX", "ES"]),
     ("pochoclo", ["AR", "UY"]), ("canguil", ["EC", "PE"]), ("cotufas", ["VE"]),
     ("crispetas", ["CO"]), ("pororó", ["BR"]), ("rositas de maíz", ["GT", "SV", "HN"])]⟩]

/-- synonymsData of the Spanish-canonical revision (second half of
`src/unnamed/part_002`; its JS `buildSearchIndex` assigns ids
`product_1`, `product_2`, ... from a counter). -/
def synonymsData₂ : List SynGroup :=
  [⟨"palomitas de maíz", "product_1",
    [("canguil", ["EC"]), ("pochoclo", ["AR", "UY"]), ("pororó", ["PY"]),
     ("crispetas", ["CO"]), ("cotufas", ["VE"]), ("rositas", ["MX"]),
     ("popcorn", ["US", "GB"])]⟩,
   ⟨"aguacate", "product_2",
    [("palta", ["AR", "CL", "PE", "UY"]), ("avocado", ["US", "GB"])]⟩,
   ⟨"papa", "product_3",
    [("patata", ["ES"]), ("potato", ["US", "GB"])]⟩,
   ⟨"frijol", "product_4",
    [("judía", ["ES"]), ("alubia", ["ES"]), ("poroto", ["AR", "CL", "UY"]),
     ("caraota", ["VE"]), ("habichuela", ["CO", "DO"]), ("bean", ["US", "GB"])]⟩,
   ⟨"piña", "product_5",
    [("ananá", ["AR", "PY", "UY"]), ("abacaxi", ["BR"]), ("pineapple", ["US", "GB"])]⟩,
   ⟨"durazno", "product_6",
    [("melocotón", ["ES"]), ("pérsico", ["AR"]), ("peach", ["US", "GB"])]⟩,
   ⟨"fresa", "product_7",
    [("frutilla", ["AR", "CL", "UY"]), ("strawberry", ["US", "GB"])]⟩,
   ⟨"maíz", "product_8",
    [("choclo", ["AR", "CL", "PE", "EC"]), ("elote", ["MX", "GT", "SV"]),
     ("jojoto", ["VE"]), ("mazorca", ["CO"]), ("corn", ["US", "GB"])]⟩,
   ⟨"guisante", "product_9",
    [("chícharo", ["MX"]), ("arveja", ["AR", "CO", "PE"]), ("petit pois", ["ES"]),
     ("pea", ["US", "GB"])]⟩,
   ⟨"judía verde", "product_10",
    [("ejote", ["MX"]), ("vainita", ["PE", "EC"]), ("habichuela tierna", ["CO"]),
     ("poroto verde", ["AR", "CL"]), ("green bean", ["US"]), ("french bean", ["GB"])]⟩]

/-- The search index built from the current dataset (part_001). -/
def searchIndex₁ : List (String × SynonymEntry) :=
  buildSearchIndex synonymsData₁

/-- The search index built from the Spanish-canonical dataset (part_002). -/
def searchIndex₂ : List (String × SynonymEntry) :=
  buildSearchIndex synonymsData₂

/-! ### SynonymService (`src/unnamed/part_004`)

The service holds `SYNONYM_DATABASE.searchIndex`; here each operation
takes the index as its first argument so that both database revisions can
be examined. -/

/-- SynonymMatch (part_004 lines 9-18). -/
structure SynonymMatch where
  canonicalTerm : String
  originalTerm : String
  confidence : ℚ
  regionInfo : Option RegionInfo
deriving DecidableEq

/-- SynonymService.findSynonyms (part_004 lines 43-64): empty or
whitespace-only input short-circuits to no matches; otherwise one O(1)
lookup of the normalized term, yielding zero or one match. -/
def SynonymService.findSynonyms (idx : List (String × SynonymEntry))
    (term : String) : List SynonymMatch :=
  if (trimJS term.data).isEmpty then []
  else
    match objGet idx (TextNormalizationService.normalize term) with
    | some e => [⟨e.canonical, term, e.confidence, e.regionInfo⟩]
    | none => []

/-- SynonymService.hasSynonyms (part_004 lines 69-72). -/
def SynonymService.hasSynonyms (idx : List (String × SynonymEntry))
    (term : String) : Bool :=
  (objGet idx (TextNormalizationService.normalize term)).isSome

/-- SynonymService.getCanonicalTerm (part_004 lines 77-81). -/
def SynonymService.getCanonicalTerm (idx : List (String × SynonymEntry))
    (term : String) : Option String :=
  (objGet idx (TextNormalizationService.normalize term)).map (fun e => e.canonical)

/-- SynonymService.findAllVariations (part_004 lines 110-129): full scan
collecting entries whose canonical term normalizes like the query,
skipping the entry whose key equals the normalized query. -/
def SynonymService.findAllVariations (idx : List (String × SynonymEntry))
    (canonicalTerm : String) : List SynonymMatch :=
  let normalizedCanonical := TextNormalizationService.normalize canonicalTerm
  (idx.filter (fun p =>
      TextNormalizationService.normalize p.2.canonical = normalizedCanonical ∧
      p.1 ≠ normalizedCanonical)).map
    (fun p => ⟨p.2.canonical, p.1, p.2.confidence, p.2.regionInfo⟩)

/-! ### Search data model (`@/types/search`, `services/search/types`) -/

/-- Searchable catalog item: identity is `id`; `category` is optional and
read as `''` when absent. -/
structure Searchable where
  id : String
  name : String
  category : Option String
deriving DecidableEq

/-- SearchResult (services/search/types): `matchType` is one of the
strings `"exact"`, `"fuzzy"`, `"partial"`. -/
structure SearchResult where
  item : Searchable
  score : ℚ
  matchType : String
  matchedTerms : List String
  originalQuery : String
deriving DecidableEq

/-- SearchOptions: `threshold` is carried but unused by `search` itself;
`minScore` and `maxResults` are optional, and JS truthiness means a
present `0` behaves like an absent option. -/
structure SearchOptions where
  threshold : Option ℚ := none
  minScore : Option ℚ := none
  maxResults : Option Nat := none

/-- The descending-score total preorder of the comparator
`(a, b) => b.score - a.score` used by every result sort. -/
def scoreGE (a b : SearchResult) : Prop := b.score ≤ a.score

instance : DecidableRel scoreGE :=
  fun a b => inferInstanceAs (Decidable (b.score ≤ a.score))

instance : IsTotal SearchResult scoreGE := ⟨fun a b => le_total b.score a.score⟩

instance : IsTrans SearchResult scoreGE := ⟨fun _ _ _ h1 h2 => le_trans h2 h1⟩

/-! ### SynonymMatchStrategy (`src/src/services/search/strategies/SynonymMatchStrategy.ts`) -/

/-- SynonymMatchStrategy.findMatches (lines 19-103): resolve the query
through the synonym service, score every item against the normalized
canonical term (exact name, name starts-with, long-enough substring with
position penalty, exact category), deduplicate by item id keeping the
best score, then sort by descending score.  The `normalizedQuery`
parameter of the TS signature is unused by the method body. -/
def SynonymMatchStrategy.findMatches (idx : List (String × SynonymEntry))
    (items : List Searchable) (query : String) (normalizedQuery : String) :
    List SearchResult :=
  let _ := normalizedQuery
  let synonymMatches := SynonymService.findSynonyms idx query
  let results := synonymMatches.foldl (fun results synonymMatch =>
    let canonicalNormalized := TextNormalizationService.normalize synonymMatch.canonicalTerm
    items.foldl (fun results item =>
      let normalizedName := TextNormalizationService.normalize item.name
      let normalizedCategory := TextNormalizationService.normalize (item.category.getD "")
      let scored : ℚ × List String :=
        if normalizedName = canonicalNormalized then
          (synonymMatch.confidence * mkRat 95 100, [item.name])
        else if jsStartsWith normalizedName canonicalNormalized then
          let lengthRatio : ℚ := (canonicalNormalized.length : ℚ) / (normalizedName.length : ℚ)
          (synonymMatch.confidence * (mkRat 85 100 + lengthRatio * mkRat 1 10), [item.name])
        else if 4 ≤ canonicalNormalized.length ∧ jsIncludes normalizedName canonicalNormalized then
          let position := jsIndexOf normalizedName canonicalNormalized
          let lengthRatio : ℚ := (canonicalNormalized.length : ℚ) / (normalizedName.length : ℚ)
          let positionPenalty : ℚ := (position : ℚ) / (normalizedName.length : ℚ)
          (synonymMatch.confidence * (mkRat 7 10 + lengthRatio * mkRat 15 100) *
            (1 - positionPenalty * mkRat 3 10), [item.name])
        else if normalizedCategory = canonicalNormalized then
          (synonymMatch.confidence * mkRat 8 10, [item.category.getD ""])
        else (0, [])
      if 0 < scored.1 then
        match results.find? (fun r => r.item.id = item.id) with
        | none =>
          results ++ [⟨item, scored.1, "partial",
            scored.2 ++ [synonymMatch.originalTerm ++ " → " ++ synonymMatch.canonicalTerm],
            query⟩]
        | some existingResult =>
          if existingResult.score < scored.1 then
            results.map (fun r =>
              if r.item.id = item.id then
                { r with
                  score := scored.1
                  matchedTerms := r.matchedTerms ++
                    [synonymMatch.originalTerm ++ " → " ++ synonymMatch.canonicalTerm] }
              else r)
          else results
      else results) results) ([] : List SearchResult)
  List.insertionSort scoreGE results

/-! ### HybridSearchEngine

Two revisions ship in the repository: the hierarchical-fallback engine of
`src/src/services/search/HybridSearchEngine.ts` (`search`) and the
cumulative-merge engine of `src/unnamed/part_003` (`searchMerge`).  Both
delegate fuzzy matching to the external Fuse.js library, modelled here as
an opaque parameter `fuse : String → List FuseResult`. -/

/-- One entry of a Fuse.js result's `matches` array (only `value` is read). -/
structure FuseMatchInfo where
  value : Option String

/-- One Fuse.js search result: `score` and the `matches` array are
optional, and the engine defaults a missing score to 1 (`matches` is a
Lean keyword, hence the field name `matchList`). -/
structure FuseResult where
  item : Searchable
  score : Option ℚ
  matchList : Option (List FuseMatchInfo)

/-- Result filter for the `minScore` option
(`!options.minScore || result.score >= options.minScore`): a present
`minScore` of 0 is falsy and disables the filter. -/
def keepByMinScore (options : SearchOptions) (result : SearchResult) : Bool :=
  match options.minScore with
  | none => true
  | some m => if m = 0 then true else decide (m ≤ result.score)

/-- Truncation for the `maxResults` option
(`options.maxResults ? sorted.slice(0, maxResults) : sorted`): a present
`maxResults` of 0 is falsy and disables truncation. -/
def applyMaxResults (options : SearchOptions) (l : List SearchResult) : List SearchResult :=
  match options.maxResults with
  | none => l
  | some m => if m = 0 then l else l.take m

/-- HybridSearchEngine.limitAndSort (HybridSearchEngine.ts lines 75-83):
filter by `minScore`, sort by descending score (stable), truncate by
`maxResults`. -/
def limitAndSort (results : List SearchResult) (options : SearchOptions) : List SearchResult :=
  applyMaxResults options
    (List.insertionSort scoreGE (results.filter (keepByMinScore options)))

/-- HybridSearchEngine.getExactMatches (HybridSearchEngine.ts lines
88-120): score 1.0 on exact normalized-name match (with `continue`),
else 0.95 on exact normalized-category match. -/
def getExactMatches (items : List Searchable) (query : String) (normalizedQuery : String) :
    List SearchResult :=
  items.filterMap (fun item =>
    let normalizedName := TextNormalizationService.normalize item.name
    let normalizedCategory := TextNormalizationService.normalize (item.category.getD "")
    if normalizedName = normalizedQuery then
      some ⟨item, 1, "exact", [item.name], query⟩
    else if normalizedCategory = normalizedQuery then
      some ⟨item, mkRat 95 100, "exact", [item.category.getD ""], query⟩
    else none)

/-- HybridSearchEngine.getFuzzyMatches (HybridSearchEngine.ts lines
125-147): convert each Fuse result score `s` to `max 0 ((1 - s) * 0.8)`,
taking matched terms from the Fuse match values when present. -/
def getFuzzyMatches (fuse : String → List FuseResult) (query : String) : List SearchResult :=
  (fuse query).map (fun fuseResult =>
    let score := fuseResult.score.getD 1
    let fuzzyScore := max 0 ((1 - score) * mkRat 8 10)
    let matchedTerms := match fuseResult.matchList with
      | some ms => ms.map (fun m => m.value.getD "")
      | none => [fuseResult.item.name]
    ⟨fuseResult.item, fuzzyScore, "fuzzy", matchedTerms, query⟩)

/-- HybridSearchEngine.getPartialMatches (HybridSearchEngine.ts lines
152-186): 0.6 for a normalized-name substring match, 0.5 for a
normalized-category substring match (the better of the two); note the
result's `originalQuery` is the *normalized* query here. -/
def getPartialMatches (items : List Searchable) (normalizedQuery : String) : List SearchResult :=
  items.filterMap (fun item =>
    let normalizedName := TextNormalizationService.normalize item.name
    let normalizedCategory := TextNormalizationService.normalize (item.category.getD "")
    let st1 : ℚ × List String :=
      if jsIncludes normalizedName normalizedQuery then (max 0 (mkRat 3 5), [item.name])
      else (0, [])
    let st2 : ℚ × List String :=
      if jsIncludes normalizedCategory normalizedQuery then
        (max st1.1 (mkRat 1 2), st1.2 ++ [item.category.getD ""])
      else st1
    if 0 < st2.1 then some ⟨item, st2.1, "partial", st2.2, normalizedQuery⟩ else none)

/-- HybridSearchEngine.search of
`src/src/services/search/HybridSearchEngine.ts` (lines 48-70):
hierarchical fallback — exact matches if any, else fuzzy matches if any,
else partial matches; each tier goes through `limitAndSort`.  An empty or
whitespace-only query returns no results. -/
def HybridSearchEngine.search (fuse : String → List FuseResult) (items : List Searchable)
    (query : String) (options : SearchOptions) : List SearchResult :=
  if (trimJS query.data).isEmpty then []
  else
    let normalizedQuery := TextNormalizationService.normalize query
    let exactResults := getExactMatches items query normalizedQuery
    if exactResults ≠ [] then limitAndSort exactResults options
    else
      let fuzzyResults := getFuzzyMatches fuse query
      if fuzzyResults ≠ [] then limitAndSort fuzzyResults options
      else limitAndSort (getPartialMatches items normalizedQuery) options

/-- exactSearch of the merge engine (part_003 lines 166-194): writes into
the id-keyed result map. -/
def exactSearch (items : List Searchable) (query : String) (normalizedQuery : String)
    (results : List (String × SearchResult)) : List (String × SearchResult) :=
  items.foldl (fun results item =>
    let normalizedName := TextNormalizationService.normalize item.name
    let normalizedCategory := TextNormalizationService.normalize (item.category.getD "")
    if normalizedName = normalizedQuery then
      objSet results item.id ⟨item, 1, "exact", [item.name], query⟩
    else if normalizedCategory = normalizedQuery then
      objSet results item.id ⟨item, mkRat 95 100, "exact", [item.category.getD ""], query⟩
    else results) results

/-- fuzzySearch of the merge engine (part_003 lines 199-223): a Fuse
result is written only if the id is new or improves on an existing
`partial` entry. -/
def fuzzySearch (fuse : String → List FuseResult) (query : String)
    (results : List (String × SearchResult)) : List (String × SearchResult) :=
  (fuse query).foldl (fun results fuseResult =>
    let score := fuseResult.score.getD 1
    let fuzzyScore := max 0 ((1 - score) * mkRat 8 10)
    let proceed := match objGet results fuseResult.item.id with
      | none => true
      | some existingResult =>
        decide (existingResult.matchType = "partial" ∧ existingResult.score < fuzzyScore)
    if proceed then
      let matchedTerms := match fuseResult.matchList with
        | some ms => ms.map (fun m => m.value.getD "")
        | none => [fuseResult.item.name]
      objSet results fuseResult.item.id ⟨fuseResult.item, fuzzyScore, "fuzzy", matchedTerms, query⟩
    else results) results

/-- partialSearch of the merge engine (part_003 lines 228-264): items
whose id already has a non-`partial` entry are skipped. -/
def runPartialSearch (items : List Searchable) (normalizedQuery : String)
    (results : List (String × SearchResult)) : List (String × SearchResult) :=
  items.foldl (fun results item =>
    let skip := match objGet results item.id with
      | none => false
      | some existingResult => decide (existingResult.matchType ≠ "partial")
    if skip then results
    else
      let normalizedName := TextNormalizationService.normalize item.name
      let normalizedCategory := TextNormalizationService.normalize (item.category.getD "")
      let st1 : ℚ × List String :=
        if jsIncludes normalizedName normalizedQuery then (max 0 (mkRat 3 5), [item.name])
        else (0, [])
      let st2 : ℚ × List String :=
        if jsIncludes normalizedCategory normalizedQuery then
          (max st1.1 (mkRat 1 2), st1.2 ++ [item.category.getD ""])
        else st1
      if 0 < st2.1 then objSet results item.id ⟨item, st2.1, "partial", st2.2, normalizedQuery⟩
      else results) results

/-- HybridSearchEngine.search of `src/unnamed/part_003` (lines 135-161):
cumulative merge — exact, fuzzy and partial all write into one id-keyed
map, whose values are then filtered by `minScore`, sorted by descending
score, and truncated by `maxResults`. -/
def HybridSearchEngine.searchMerge (fuse : String → List FuseResult) (items : List Searchable)
    (query : String) (options : SearchOptions) : List SearchResult :=
  if (trimJS query.data).isEmpty then []
  else
    let normalizedQuery := TextNormalizationService.normalize query
    let results := runPartialSearch items normalizedQuery
      (fuzzySearch fuse query (exactSearch items query normalizedQuery []))
    applyMaxResults options
      (List.insertionSort scoreGE
        ((results.map (fun p => p.2)).filter (keepByMinScore options)))

/-! ### QueryEngine (`src/src/services/QueryEngine.ts`) -/

/-- A filter request: a type string picking a registered filter plus its
opaque payload. -/
structure FilterCriteria where
  type : String
  value : String
deriving DecidableEq

/-- QueryOptions of executeQuery. -/
structure QueryOptions where
  searchTerm : Option String := none
  filters : Option (List FilterCriteria) := none
  sortBy : Option String := none
  sortOrder : Option String := none

/-- QueryResult of executeQuery. -/
structure QueryResult where
  items : List Searchable
  totalCount : Nat
  appliedFilters : List FilterCriteria
deriving DecidableEq

/-- One iteration of the filter loop of executeQuery (QueryEngine.ts
lines 26-32): apply the registered filter and record it, or skip a filter
whose type has no registered definition. -/
def applyFiltersStep
    (filterRegistry : String → Option (List Searchable → FilterCriteria → List Searchable))
    (acc : List Searchable × List FilterCriteria) (f : FilterCriteria) :
    List Searchable × List FilterCriteria :=
  match filterRegistry f.type with
  | some applyFilter => (applyFilter acc.1 f, acc.2 ++ [f])
  | none => acc

/-- QueryEngine.executeQuery (QueryEngine.ts lines 11-53).  The filter
registry is the `Map` populated by `registerFilter`, modelled as a lookup
function; `fieldVal` models the dynamic read `(item as any)[sortBy]` used
by the sort comparator.  A present, non-whitespace search term filters
items by a plain lowercase substring test on name and category; supplied
filters are applied left to right, each skipped silently when its type is
not registered; an optional single-key sort (stable model of the JS
comparator that never returns 0) runs last. -/
def QueryEngine.executeQuery
    (filterRegistry : String → Option (List Searchable → FilterCriteria → List Searchable))
    (fieldVal : Searchable → String → ℚ)
    (items : List Searchable) (options : QueryOptions) : QueryResult :=
  let filteredItems := items
  let filteredItems := match options.searchTerm with
    | some searchTerm =>
      if (trimJS searchTerm.data).isEmpty then filteredItems
      else
        let st : String := ⟨trimJS (jsToLowerStr searchTerm).data⟩
        filteredItems.filter (fun item =>
          jsIncludes (jsToLowerStr item.name) st ||
          (match item.category with
           | some c => jsIncludes (jsToLowerStr c) st
           | none => false))
    | none => filteredItems
  let stage2 := match options.filters with
    | some fs => fs.foldl (applyFiltersStep filterRegistry)
        (filteredItems, ([] : List FilterCriteria))
    | none => (filteredItems, [])
  let sortedItems := match options.sortBy with
    | some key => List.insertionSort (fun a b =>
        if options.sortOrder = some "desc" then fieldVal b key ≤ fieldVal a key
        else fieldVal a key ≤ fieldVal b key) stage2.1
    | none => stage2.1
  ⟨sortedItems, sortedItems.length, stage2.2⟩

/-! ### Derived facts used by the claims -/

/-- Item ids of a result list. -/
def resultIds (l : List SearchResult) : List String :=
  l.map (fun r => r.item.id)

theorem pairwise_ids_filter {l : List SearchResult} (p : SearchResult → Bool)
    (h : l.Pairwise (fun a b => a.item.id ≠ b.item.id)) :
    (l.filter p).Pairwise (fun a b => a.item.id ≠ b.item.id) :=
  List.Pairwise.sublist (List.filter_sublist l) h

theorem pairwise_ids_sort {l : List SearchResult}
    (h : l.Pairwise (fun a b => a.item.id ≠ b.item.id)) :
    (List.insertionSort scoreGE l).Pairwise (fun a b => a.item.id ≠ b.item.id) :=
  ((List.perm_insertionSort scoreGE l).pairwise_iff (fun h1 h2 => (h1 h2.symm))).2 h

theorem pairwise_ids_take {l : List SearchResult} (n : Nat)
    (h : l.Pairwise (fun a b => a.item.id ≠ b.item.id)) :
    (l.take n).Pairwise (fun a b => a.item.id ≠ b.item.id) :=
  List.Pairwise.sublist (List.take_sublist n l) h

theorem pairwise_ids_applyMaxResults {l : List SearchResult} (options : SearchOptions)
    (h : l.Pairwise (fun a b => a.item.id ≠ b.item.id)) :
    (applyMaxResults options l).Pairwise (fun a b => a.item.id ≠ b.item.id) := by
  rw [applyMaxResults]
  cases options.maxResults with
  | none => exact h
  | some m =>
    by_cases hm : m = 0
    · simpa [hm] using h
    · simpa [hm] using pairwise_ids_take m h

theorem nodup_resultIds_iff {l : List SearchResult} :
    (resultIds l).Nodup ↔ l.Pairwise (fun a b => a.item.id ≠ b.item.id) := by
  rw [resultIds, List.Nodup, List.pairwise_map]

theorem limitAndSort_nodup_ids {l : List SearchResult} (options : SearchOptions)
    (h : (resultIds l).Nodup) : (resultIds (limitAndSort l options)).Nodup := by
  rw [nodup_resultIds_iff] at h ⊢
  rw [limitAndSort]
  exact pairwise_ids_applyMaxResults options (pairwise_ids_sort (pairwise_ids_filter _ h))

theorem nodup_ids_filterMap (f : Searchable → Option SearchResult)
    (hf : ∀ i r, f i = some r → r.item = i) :
    ∀ {items : List Searchable}, (items.map (fun i => i.id)).Nodup →
      (resultIds (items.filterMap f)).Nodup := by
  intro items
  induction items with
  | nil => intro _; simp [resultIds]
  | cons i tl ih =>
    intro h
    rw [List.map_cons, List.nodup_cons] at h
    rw [List.filterMap_cons]
    cases hfi : f i with
    | none => exact ih h.2
    | some r =>
      rw [resultIds, List.map_cons, List.nodup_cons]
      refine ⟨?_, ih h.2⟩
      intro hmem
      rcases List.mem_map.1 hmem with ⟨s, hs, hsid⟩
      rcases List.mem_filterMap.1 hs with ⟨b, hb, hfb⟩
      have hsb : s.item = b := hf b s hfb
      have hri : r.item = i := hf i r hfi
      apply h.1
      rw [List.mem_map]
      exact ⟨b, hb, by rw [← hsb, hsid, hri]⟩

theorem getExactMatches_item (query normalizedQuery : String) :
    ∀ i r, (fun item =>
      let normalizedName := TextNormalizationService.normalize item.name
      let normalizedCategory := TextNormalizationService.normalize (item.category.getD "")
      if normalizedName = normalizedQuery then
        some (⟨item, 1, "exact", [item.name], query⟩ : SearchResult)
      else if normalizedCategory = normalizedQuery then
        some ⟨item, mkRat 95 100, "exact", [item.category.getD ""], query⟩
      else none) i = some r → r.item = i := by
  intro i r h
  simp only at h
  split_ifs at h with h1 h2 <;> simp at h <;> rw [← h]

theorem getExactMatches_nodup_ids {items : List Searchable} (query normalizedQuery : String)
    (h : (items.map (fun i => i.id)).Nodup) :
    (resultIds (getExactMatches items query normalizedQuery)).Nodup := by
  rw [getExactMatches]
  exact nodup_ids_filterMap _ (getExactMatches_item query normalizedQuery) h

theorem getPartialMatches_item (normalizedQuery : String) :
    ∀ i r, (fun item =>
      let normalizedName := TextNormalizationService.normalize item.name
      let normalizedCategory := TextNormalizationService.normalize (item.category.getD "")
      let st1 : ℚ × List String :=
        if jsIncludes normalizedName normalizedQuery then (max 0 (mkRat 3 5), [item.name])
        else (0, [])
      let st2 : ℚ × List String :=
        if jsIncludes normalizedCategory normalizedQuery then
          (max st1.1 (mkRat 1 2), st1.2 ++ [item.category.getD ""])
        else st1
      if 0 < st2.1 then some (⟨item, st2.1, "partial", st2.2, normalizedQuery⟩ : SearchResult)
      else none) i = some r → r.item = i := by
  intro i r h
  simp only at h
  split_ifs at h <;> simp at h <;> rw [← h]

theorem getPartialMatches_nodup_ids {items : List Searchable} (normalizedQuery : String)
    (h : (items.map (fun i => i.id)).Nodup) :
    (resultIds (getPartialMatches items normalizedQuery)).Nodup := by
  rw [getPartialMatches]
  exact nodup_ids_filterMap _ (getPartialMatches_item normalizedQuery) h

theorem getFuzzyMatches_ids (fuse : String → List FuseResult) (query : String) :
    resultIds (getFuzzyMatches fuse query) = (fuse query).map (fun r => r.item.id) := by
  rw [resultIds, getFuzzyMatches, List.map_map]
  rfl

/-- Invariant of the merge engine's result map: keys are distinct and each
value's item id equals its key. -/
def IdKeyed (m : List (String × SearchResult)) : Prop :=
  (m.map Prod.fst).Nodup ∧ ∀ p ∈ m, p.2.item.id = p.1

theorem idKeyed_nil : IdKeyed [] := ⟨List.nodup_nil, by intro p hp; simp at hp⟩

theorem objSet_idKeyed {m : List (String × SearchResult)} {k : String} {v : SearchResult}
    (h : IdKeyed m) (hv : v.item.id = k) : IdKeyed (objSet m k v) := by
  rw [objSet]
  by_cases hany : m.any (fun p => p.1 = k) = true
  · rw [if_pos hany]
    constructor
    · have hkeys : (m.map (fun p => if p.1 = k then (k, v) else p)).map Prod.fst =
          m.map Prod.fst := by
        rw [List.map_map]
        apply List.map_congr_left
        intro p _
        by_cases hp : p.1 = k
        · simp [hp]
        · simp [hp]
      rw [hkeys]
      exact h.1
    · intro p hp
      rcases List.mem_map.1 hp with ⟨q, hq, hqp⟩
      by_cases hqk : q.1 = k
      · rw [if_pos hqk] at hqp
        rw [← hqp]
        exact hv
      · rw [if_neg hqk] at hqp
        rw [← hqp]
        exact h.2 q hq
  · rw [if_neg hany]
    constructor
    · rw [List.map_append]
      rw [List.nodup_append]
      refine ⟨h.1, by simp, ?_⟩
      intro a ha hb
      simp at hb
      rcases List.mem_map.1 ha with ⟨q, hq, hqa⟩
      rw [List.any_eq_true] at hany
      push_neg at hany
      have hne := hany q hq
      simp at hne
      rw [hb] at hqa
      exact hne (by rw [hqa])
    · intro p hp
      rcases List.mem_append.1 hp with h1 | h1
      · exact h.2 p h1
      · simp at h1
        rw [h1]
        exact hv

theorem foldl_preserve {β : Type} (P : List (String × SearchResult) → Prop)
    (step : List (String × SearchResult) → β → List (String × SearchResult))
    (hstep : ∀ m b, P m → P (step m b)) :
    ∀ (bs : List β) (m : List (String × SearchResult)), P m → P (bs.foldl step m) := by
  intro bs
  induction bs with
  | nil => intro m hm; exact hm
  | cons b tl ih => intro m hm; exact ih (step m b) (hstep m b hm)

theorem exactSearch_idKeyed (items : List Searchable) (query normalizedQuery : String)
    {m : List (String × SearchResult)} (h : IdKeyed m) :
    IdKeyed (exactSearch items query normalizedQuery m) := by
  rw [exactSearch]
  refine foldl_preserve IdKeyed _ ?_ items m h
  intro m' i hm'
  simp only
  split_ifs <;> first | exact objSet_idKeyed hm' rfl | exact hm'

theorem fuzzySearch_idKeyed (fuse : String → List FuseResult) (query : String)
    {m : List (String × SearchResult)} (h : IdKeyed m) :
    IdKeyed (fuzzySearch fuse query m) := by
  rw [fuzzySearch]
  refine foldl_preserve IdKeyed _ ?_ (fuse query) m h
  intro m' fr hm'
  simp only
  split_ifs <;> first | exact objSet_idKeyed hm' rfl | exact hm'

theorem runPartialSearch_idKeyed (items : List Searchable) (normalizedQuery : String)
    {m : List (String × SearchResult)} (h : IdKeyed m) :
    IdKeyed (runPartialSearch items normalizedQuery m) := by
  rw [runPartialSearch]
  refine foldl_preserve IdKeyed _ ?_ items m h
  intro m' i hm'
  simp only
  split_ifs <;> first | exact objSet_idKeyed hm' rfl | exact hm'

theorem idKeyed_values_nodup {m : List (String × SearchResult)} (h : IdKeyed m) :
    (resultIds (m.map (fun p => p.2))).Nodup := by
  rw [resultIds, List.map_map]
  have hmap : m.map ((fun r => r.item.id) ∘ (fun p : String × SearchResult => p.2)) =
      m.map Prod.fst := by
    apply List.map_congr_left
    intro p hp
    exact h.2 p hp
  rw [hmap]
  exact h.1

theorem getExactMatches_score_nonneg {items : List Searchable} {query normalizedQuery : String} :
    ∀ r ∈ getExactMatches items query normalizedQuery, 0 ≤ r.score := by
  intro r hr
  rw [getExactMatches] at hr
  rcases List.mem_filterMap.1 hr with ⟨i, _, hf⟩
  simp only at hf
  split_ifs at hf <;> simp at hf <;> rw [← hf]
  · exact zero_le_one
  · show (0 : ℚ) ≤ mkRat 95 100
    decide

theorem getFuzzyMatches_score_nonneg {fuse : String → List FuseResult} {query : String} :
    ∀ r ∈ getFuzzyMatches fuse query, 0 ≤ r.score := by
  intro r hr
  rw [getFuzzyMatches] at hr
  rcases List.mem_map.1 hr with ⟨fr, _, hfr⟩
  rw [← hfr]
  exact le_max_left 0 _

theorem getPartialMatches_score_nonneg {items : List Searchable} {normalizedQuery : String} :
    ∀ r ∈ getPartialMatches items normalizedQuery, 0 ≤ r.score := by
  intro r hr
  rw [getPartialMatches] at hr
  rcases List.mem_filterMap.1 hr with ⟨i, _, hf⟩
  simp only at hf
  split_ifs at hf <;> simp at hf <;> rw [← hf] <;>
    (refine le_of_lt ?_; assumption)

theorem objSet_forall_values (P : SearchResult → Prop) {m : List (String × SearchResult)}
    {k : String} {v : SearchResult} (h : ∀ p ∈ m, P p.2) (hv : P v) :
    ∀ p ∈ objSet m k v, P p.2 := by
  intro p hp
  rw [objSet] at hp
  by_cases hany : m.any (fun q => q.1 = k) = true
  · rw [if_pos hany] at hp
    rcases List.mem_map.1 hp with ⟨q, hq, hqp⟩
    by_cases hqk : q.1 = k
    · rw [if_pos hqk] at hqp; rw [← hqp]; exact hv
    · rw [if_neg hqk] at hqp; rw [← hqp]; exact h q hq
  · rw [if_neg hany] at hp
    rcases List.mem_append.1 hp with h1 | h1
    · exact h p h1
    · simp at h1; rw [h1]; exact hv

theorem exactSearch_score_nonneg (items : List Searchable) (query normalizedQuery : String)
    {m : List (String × SearchResult)} (h : ∀ p ∈ m, 0 ≤ p.2.score) :
    ∀ p ∈ exactSearch items query normalizedQuery m, 0 ≤ p.2.score := by
  rw [exactSearch]
  refine foldl_preserve (fun m => ∀ p ∈ m, 0 ≤ p.2.score) _ ?_ items m h
  intro m' i hm'
  simp only
  split_ifs
  · exact objSet_forall_values (fun r => 0 ≤ r.score) hm' zero_le_one
  · refine objSet_forall_values (fun r => 0 ≤ r.score) hm' ?_
    show (0 : ℚ) ≤ mkRat 95 100
    decide
  · exact hm'

theorem fuzzySearch_score_nonneg (fuse : String → List FuseResult) (query : String)
    {m : List (String × SearchResult)} (h : ∀ p ∈ m, 0 ≤ p.2.score) :
    ∀ p ∈ fuzzySearch fuse query m, 0 ≤ p.2.score := by
  rw [fuzzySearch]
  refine foldl_preserve (fun m => ∀ p ∈ m, 0 ≤ p.2.score) _ ?_ (fuse query) m h
  intro m' fr hm'
  simp only
  split_ifs
  · exact objSet_forall_values (fun r => 0 ≤ r.score) hm' (le_max_left 0 _)
  · exact hm'

theorem runPartialSearch_score_nonneg (items : List Searchable) (normalizedQuery : String)
    {m : List (String × SearchResult)} (h : ∀ p ∈ m, 0 ≤ p.2.score) :
    ∀ p ∈ runPartialSearch items normalizedQuery m, 0 ≤ p.2.score := by
  rw [runPartialSearch]
  refine foldl_preserve (fun m => ∀ p ∈ m, 0 ≤ p.2.score) _ ?_ items m h
  intro m' i hm'
  simp only
  split_ifs <;>
    first
      | exact hm'
      | (refine objSet_forall_values (fun r => 0 ≤ r.score) hm' (le_of_lt ?_); assumption)

theorem mem_applyMaxResults {l : List SearchResult} {options : SearchOptions}
    {r : SearchResult} (h : r ∈ applyMaxResults options l) : r ∈ l := by
  cases hopt : options.maxResults with
  | none => simpa only [applyMaxResults, hopt] using h
  | some n =>
    simp only [applyMaxResults, hopt] at h
    by_cases hn : n = 0
    · rw [if_pos hn] at h; exact h
    · rw [if_neg hn] at h; exact (List.take_sublist n l).subset h

theorem sorted_pipeline (l : List SearchResult) (p : SearchResult → Bool)
    (options : SearchOptions) :
    (applyMaxResults options (List.insertionSort scoreGE (l.filter p))).Pairwise
      (fun a b => b.score ≤ a.score) := by
  have hs : (List.insertionSort scoreGE (l.filter p)).Pairwise scoreGE :=
    List.sorted_insertionSort scoreGE (l.filter p)
  have hs' : (List.insertionSort scoreGE (l.filter p)).Pairwise (fun a b => b.score ≤ a.score) :=
    hs.imp (fun hab => hab)
  cases hopt : options.maxResults with
  | none => simpa only [applyMaxResults, hopt] using hs'
  | some n =>
    simp only [applyMaxResults, hopt]
    by_cases hn : n = 0
    · simpa [hn] using hs'
    · simpa [hn] using List.Pairwise.sublist (List.take_sublist n _) hs'

theorem keepByMinScore_bound {options : SearchOptions} {m : ℚ} {r : SearchResult}
    (hm : options.minScore = some m) (hkeep : keepByMinScore options r = true)
    (hnn : 0 ≤ r.score) : m ≤ r.score := by
  simp only [keepByMinScore, hm] at hkeep
  split_ifs at hkeep with h0
  · rw [h0]; exact hnn
  · exact of_decide_eq_true hkeep

theorem mem_limitAndSort {l : List SearchResult} {options : SearchOptions} {r : SearchResult}
    (h : r ∈ limitAndSort l options) : r ∈ l ∧ keepByMinScore options r = true := by
  rw [limitAndSort] at h
  have h1 := mem_applyMaxResults h
  rw [(List.perm_insertionSort scoreGE _).mem_iff] at h1
  have h2 := List.mem_filter.1 h1
  exact ⟨h2.1, h2.2⟩

theorem keepByMinScore_erase_max (options : SearchOptions) :
    keepByMinScore { options with maxResults := none } = keepByMinScore options := rfl

theorem search_sorted (fuse : String → List FuseResult) (items : List Searchable)
    (query : String) (options : SearchOptions) :
    (HybridSearchEngine.search fuse items query options).Pairwise
      (fun a b => b.score ≤ a.score) := by
  simp only [HybridSearchEngine.search]
  split_ifs
  · exact List.Pairwise.nil
  all_goals (rw [limitAndSort]; exact sorted_pipeline _ _ options)

theorem searchMerge_sorted (fuse : String → List FuseResult) (items : List Searchable)
    (query : String) (options : SearchOptions) :
    (HybridSearchEngine.searchMerge fuse items query options).Pairwise
      (fun a b => b.score ≤ a.score) := by
  simp only [HybridSearchEngine.searchMerge]
  split_ifs
  · exact List.Pairwise.nil
  · exact sorted_pipeline _ _ options

theorem search_minScore (fuse : String → List FuseResult) (items : List Searchable)
    (query : String) (options : SearchOptions) (m : ℚ) (hm : options.minScore = some m) :
    ∀ r ∈ HybridSearchEngine.search fuse items query options, m ≤ r.score := by
  simp only [HybridSearchEngine.search]
  split_ifs
  · intro r hr; simp at hr
  · intro r hr
    obtain ⟨hmem, hkeep⟩ := mem_limitAndSort hr
    exact keepByMinScore_bound hm hkeep (getExactMatches_score_nonneg r hmem)
  · intro r hr
    obtain ⟨hmem, hkeep⟩ := mem_limitAndSort hr
    exact keepByMinScore_bound hm hkeep (getFuzzyMatches_score_nonneg r hmem)
  · intro r hr
    obtain ⟨hmem, hkeep⟩ := mem_limitAndSort hr
    exact keepByMinScore_bound hm hkeep (getPartialMatches_score_nonneg r hmem)

theorem searchMerge_minScore (fuse : String → List FuseResult) (items : List Searchable)
    (query : String) (options : SearchOptions) (m : ℚ) (hm : options.minScore = some m) :
    ∀ r ∈ HybridSearchEngine.searchMerge fuse items query options, m ≤ r.score := by
  simp only [HybridSearchEngine.searchMerge]
  split_ifs
  · intro r hr; simp at hr
  · intro r hr
    obtain ⟨hmem, hkeep⟩ := mem_limitAndSort hr
    have hnn : ∀ p ∈ runPartialSearch items (TextNormalizationService.normalize query)
        (fuzzySearch fuse query (exactSearch items query
          (TextNormalizationService.normalize query) [])), 0 ≤ p.2.score := by
      refine runPartialSearch_score_nonneg _ _ ?_
      refine fuzzySearch_score_nonneg _ _ ?_
      refine exactSearch_score_nonneg _ _ _ ?_
      intro p hp; simp at hp
    rcases List.mem_map.1 hmem with ⟨p, hp, hpr⟩
    refine keepByMinScore_bound hm hkeep ?_
    rw [← hpr]
    exact hnn p hp

theorem search_take (fuse : String → List FuseResult) (items : List Searchable)
    (query : String) (options : SearchOptions) (n : Nat)
    (hn : options.maxResults = some n) (h0 : n ≠ 0) :
    HybridSearchEngine.search fuse items query options =
      (HybridSearchEngine.search fuse items query { options with maxResults := none }).take n := by
  simp only [HybridSearchEngine.search]
  split_ifs
  · simp
  all_goals
    (rw [limitAndSort, limitAndSort, keepByMinScore_erase_max]
     simp only [applyMaxResults, hn]
     rw [if_neg h0])

theorem searchMerge_take (fuse : String → List FuseResult) (items : List Searchable)
    (query : String) (options : SearchOptions) (n : Nat)
    (hn : options.maxResults = some n) (h0 : n ≠ 0) :
    HybridSearchEngine.searchMerge fuse items query options =
      (HybridSearchEngine.searchMerge fuse items query
        { options with maxResults := none }).take n := by
  simp only [HybridSearchEngine.searchMerge]
  split_ifs
  · simp
  · rw [keepByMinScore_erase_max]
    simp only [applyMaxResults, hn]
    rw [if_neg h0]

theorem applyFiltersStep_skip
    (reg : String → Option (List Searchable → FilterCriteria → List Searchable)) :
    ∀ (fs : List FilterCriteria) (acc : List Searchable × List FilterCriteria),
    fs.foldl (applyFiltersStep reg) acc =
      (fs.filter (fun f => (reg f.type).isSome)).foldl (applyFiltersStep reg) acc := by
  intro fs
  induction fs with
  | nil => intro acc; rfl
  | cons f tl ih =>
    intro acc
    rw [List.foldl_cons]
    cases h : reg f.type with
    | none =>
      have hstep : applyFiltersStep reg acc f = acc := by
        simp [applyFiltersStep, h]
      rw [hstep, List.filter_cons, if_neg (by simp [h])]
      exact ih acc
    | some applyFilter =>
      rw [List.filter_cons, if_pos (by simp [h]), List.foldl_cons]
      exact ih (applyFiltersStep reg acc f)

theorem applyFiltersStep_snd
    (reg : String → Option (List Searchable → FilterCriteria → List Searchable)) :
    ∀ (fs : List FilterCriteria) (acc : List Searchable × List FilterCriteria),
    (fs.foldl (applyFiltersStep reg) acc).2 =
      acc.2 ++ fs.filter (fun f => (reg f.type).isSome) := by
  intro fs
  induction fs with
  | nil => intro acc; simp
  | cons f tl ih =>
    intro acc
    rw [List.foldl_cons]
    cases h : reg f.type with
    | none =>
      have hstep : applyFiltersStep reg acc f = acc := by
        simp [applyFiltersStep, h]
      rw [hstep, List.filter_cons, if_neg (by simp [h])]
      exact ih acc
    | some applyFilter =>
      rw [List.filter_cons, if_pos (by simp [h]), ih]
      have hstep : (applyFiltersStep reg acc f).2 = acc.2 ++ [f] := by
        simp [applyFiltersStep, h]
      rw [hstep, List.append_assoc]
      rfl

/-- Whitespace-only input normalizes (with the default options) to the
empty string. -/
theorem normalize_of_trim_empty {s : String} (h : trimJS s.data = []) :
    TextNormalizationService.normalize s = "" := by
  simp [TextNormalizationService.normalize, normalizeL, trimStage, lowerStage,
    accentStage, specialStage, DEFAULT_OPTIONS, h, collapseWs]

/-! ### Concrete instances used by witnesses and counterexamples -/

/-- The two-item catalog of the spec's end-to-end scenarios. -/
def catalogC5 : List Searchable :=
  [⟨"1", "Zanahoria", some "Verduras"⟩, ⟨"2", "Aguacate", some "Frutas"⟩]

/-- A Fuse.js search yielding no results.  For every concrete query used
below ("palta", "zanahoria", "te" against these catalogs) the real Fuse
instance with `threshold: 0.4` also finds nothing, since the pattern is
more than 40% edit distance away from every indexed field, so this stub
coincides with the library's behaviour on those calls. -/
def fuseStub : String → List FuseResult := fun _ => []

/-! ## The claims -/

/-- C1: for every query, item set (with the data model's unique ids) and
options, and for every Fuse instance that reports each indexed item at
most once, `search` never returns two results with the same item id —
in both the hierarchical engine and the cumulative-merge engine (the
latter holds by construction of its id-keyed map, independently of the
hypotheses). -/
theorem claimC1 (fuse : String → List FuseResult) (items : List Searchable)
    (query : String) (options : SearchOptions)
    (hitems : (items.map (fun i => i.id)).Nodup)
    (hfuse : ((fuse query).map (fun r => r.item.id)).Nodup) :
    (resultIds (HybridSearchEngine.search fuse items query options)).Nodup ∧
    (resultIds (HybridSearchEngine.searchMerge fuse items query options)).Nodup := by
  constructor
  · simp only [HybridSearchEngine.search]
    split_ifs with h1 h2 h3
    · simp [resultIds]
    · exact limitAndSort_nodup_ids options (getExactMatches_nodup_ids _ _ hitems)
    · refine limitAndSort_nodup_ids options ?_
      rw [getFuzzyMatches_ids]
      exact hfuse
    · exact limitAndSort_nodup_ids options (getPartialMatches_nodup_ids _ hitems)
  · simp only [HybridSearchEngine.searchMerge]
    split_ifs with h1
    · simp [resultIds]
    · have hik : IdKeyed (runPartialSearch items
          (TextNormalizationService.normalize query)
          (fuzzySearch fuse query (exactSearch items query
            (TextNormalizationService.normalize query) []))) :=
        runPartialSearch_idKeyed _ _ (fuzzySearch_idKeyed _ _
          (exactSearch_idKeyed _ _ _ idKeyed_nil))
      have hvals := idKeyed_values_nodup hik
      rw [nodup_resultIds_iff] at hvals ⊢
      exact pairwise_ids_applyMaxResults options
        (pairwise_ids_sort (pairwise_ids_filter _ hvals))

/-- C1 witness: the property at a concrete catalog, query and stub Fuse
instance. -/
theorem claimC1_witness :
    (resultIds (HybridSearchEngine.search fuseStub catalogC5 "zanahoria" {})).Nodup ∧
    (resultIds (HybridSearchEngine.searchMerge fuseStub catalogC5 "zanahoria" {})).Nodup :=
  claimC1 fuseStub catalogC5 "zanahoria" {} (by decide) (by decide)

/-- C2 counterexample: with the default options, `normalize` is not
idempotent — `normalize(". a")` is `" a"` (the dot is removed only after
trimming, exposing a leading space) but `normalize(" a")` is `"a"`. -/
theorem claimC2_counterexample :
    TextNormalizationService.normalize (TextNormalizationService.normalize ". a") ≠
      TextNormalizationService.normalize ". a" := by decide

/-- C2 (amended): for every option set, a second `normalize` pass only
re-trims: `normalize(normalize(x)) = trim(normalize(x))` when
`trimWhitespace` is on, and `normalize` is idempotent whenever
`trimWhitespace` is off. -/
theorem claimC2_amended (o : NormalizationOptions) (s : String) :
    TextNormalizationService.normalize (TextNormalizationService.normalize s o) o =
      (if o.trimWhitespace = true
       then (⟨trimJS (TextNormalizationService.normalize s o).data⟩ : String)
       else TextNormalizationService.normalize s o) := by
  have h := normalizeL_normalizeL o s.data
  rw [trimStage] at h
  by_cases ht : o.trimWhitespace = true
  · rw [if_pos ht] at h
    rw [if_pos ht]
    exact congrArg String.mk h
  · rw [if_neg ht] at h
    rw [if_neg ht]
    exact congrArg String.mk h

/-- C3 counterexample: on the catalog [Te, Tea] with search term "te",
the Query Engine returns both items in input order, while the Hybrid
Search Engine's ranked output for "te" is just the exact match [Te] —
executeQuery's item sequence is not the hybrid engine's output. -/
theorem claimC3_counterexample :
    (QueryEngine.executeQuery (fun _ => none) (fun _ _ => 0)
        [⟨"1", "Te", none⟩, ⟨"2", "Tea", none⟩] { searchTerm := some "te" }).items ≠
      (HybridSearchEngine.search fuseStub [⟨"1", "Te", none⟩, ⟨"2", "Tea", none⟩] "te"
        { threshold := some (mkRat 4 10) }).map (fun r => r.item) := by decide

/-- C3 (amended): when a non-empty (after trimming) search term is
present, the Query Engine does not consult the Hybrid Search Engine at
all — before attribute filters and sorting its item sequence is exactly
the input items whose lowercased name or category contains the lowercased
trimmed term, in input order. -/
theorem claimC3_amended
    (filterRegistry : String → Option (List Searchable → FilterCriteria → List Searchable))
    (fieldVal : Searchable → String → ℚ) (items : List Searchable)
    (options : QueryOptions) (t : String)
    (hterm : options.searchTerm = some t) (hne : trimJS t.data ≠ [])
    (hfil : options.filters = none) (hsort : options.sortBy = none) :
    (QueryEngine.executeQuery filterRegistry fieldVal items options).items =
      items.filter (fun item =>
        jsIncludes (jsToLowerStr item.name) (⟨trimJS (jsToLowerStr t).data⟩ : String) ||
        (match item.category with
         | some c => jsIncludes (jsToLowerStr c) (⟨trimJS (jsToLowerStr t).data⟩ : String)
         | none => false)) := by
  have hg : (trimJS t.data).isEmpty = false := by
    cases hE : (trimJS t.data).isEmpty
    · rfl
    · exact absurd (by simpa using hE) hne
  simp [QueryEngine.executeQuery, hterm, hfil, hsort, hg]

/-- C3 witness: the amended characterization evaluated on the Te/Tea
catalog. -/
theorem claimC3_witness :
    (QueryEngine.executeQuery (fun _ => none) (fun _ _ => 0)
        [⟨"1", "Te", none⟩, ⟨"2", "Tea", none⟩] { searchTerm := some "te" }).items =
      [⟨"1", "Te", none⟩, ⟨"2", "Tea", none⟩] := by
  have h := claimC3_amended (fun _ => none) (fun _ _ => 0)
    [⟨"1", "Te", none⟩, ⟨"2", "Tea", none⟩] { searchTerm := some "te" } "te"
    rfl (by decide) rfl rfl
  rw [h]
  decide

/-- C4 counterexample: "brócoli" is a key of the built index but is not a
normalization fixed point (it normalizes to "brocoli"); and the "banana"
vocabulary group's canonical key holds confidence 0.9, not 1.0, because
the group lists "banana" among its own synonyms and the synonym insertion
overwrites the canonical entry. -/
theorem claimC4_counterexample :
    ((objGet searchIndex₁ "brócoli").isSome = true ∧
      TextNormalizationService.normalize "brócoli" = "brocoli" ∧
      "brocoli" ≠ "brócoli") ∧
    ((∃ g ∈ synonymsData₁, g.canonical = "banana") ∧
      TextNormalizationService.normalize "banana" = "banana" ∧
      (objGet searchIndex₁ "banana").map (fun e => e.confidence) = some (mkRat 9 10) ∧
      mkRat 9 10 ≠ 1) := by decide

/-- C4 (amended): every key of the built index equals its own
lowercasing (keys are inserted lowercased, not fully normalized), and for
every vocabulary group the lowercased canonical term is a key whose entry
has confidence 1.0 — except when the group lists the canonical term among
its own synonyms, in which case the synonym insertion overwrites it (with
confidence 0.9). -/
theorem claimC4_amended :
    (∀ k, (objGet searchIndex₁ k).isSome = true → jsToLowerStr k = k) ∧
    (∀ g ∈ synonymsData₁,
      (objGet searchIndex₁ (jsToLowerStr g.canonical)).isSome = true ∧
      ((g.synonyms.all (fun sy => sy.1 ≠ g.canonical)) = true →
        (objGet searchIndex₁ (jsToLowerStr g.canonical)).map (fun e => e.confidence) =
          some 1)) := by
  constructor
  · intro k hk
    rw [objGet] at hk
    cases hfind : searchIndex₁.find? (fun p => p.1 = k) with
    | none => rw [hfind] at hk; simp at hk
    | some p =>
      have hp := List.mem_of_find?_eq_some hfind
      have hpk : p.1 = k := by simpa using List.find?_some hfind
      have hkeys : ∀ q ∈ searchIndex₁, jsToLowerStr q.1 = q.1 := by decide
      rw [← hpk]
      exact hkeys p hp
  · decide

/-- C4 witness: the amended key property at the concrete key "palta". -/
theorem claimC4_witness : jsToLowerStr "palta" = "palta" :=
  claimC4_amended.1 "palta" (by decide)

/-- C5: evaluation at the failing input.  With the current dataset the
synonym index maps "palta" to the canonical term "avocado", which matches
neither item of the catalog [Zanahoria, Aguacate]: the synonym strategy
returns no result (so nothing can carry "palta → aguacate"), and both
shipped engines — which never invoke the synonym strategy at all — return
the empty list for `search("palta")`. -/
theorem claimC5_bug :
    SynonymService.getCanonicalTerm searchIndex₁ "palta" = some "avocado" ∧
    SynonymMatchStrategy.findMatches searchIndex₁ catalogC5 "palta"
      (TextNormalizationService.normalize "palta") = [] ∧
    HybridSearchEngine.search fuseStub catalogC5 "palta"
      { threshold := some (mkRat 4 10) } = [] ∧
    HybridSearchEngine.searchMerge fuseStub catalogC5 "palta"
      { threshold := some (mkRat 4 10) } = [] := by decide

/-- C6 counterexample: with `maxResults := 0` (falsy in JS) the
truncation is skipped, so the returned list can be longer than
`maxResults` — here both engines return one result where the claim
demands at most zero. -/
theorem claimC6_counterexample :
    ¬((HybridSearchEngine.search fuseStub catalogC5 "zanahoria"
        { minScore := none, maxResults := some 0 }).length ≤ 0) ∧
    ¬((HybridSearchEngine.searchMerge fuseStub catalogC5 "zanahoria"
        { minScore := none, maxResults := some 0 }).length ≤ 0) := by decide

/-- C6 (amended): for both engines the result list is sorted
non-increasing by score; a present `minScore` bounds every returned score
from below (scores are never negative, so this also covers the falsy
`minScore = 0`); and a present *nonzero* `maxResults` makes the output
exactly the first `maxResults` elements of the sorted, filtered list (in
particular at most `maxResults` long). -/
theorem claimC6_amended (fuse : String → List FuseResult) (items : List Searchable)
    (query : String) (options : SearchOptions) :
    ((HybridSearchEngine.search fuse items query options).Pairwise
        (fun a b => b.score ≤ a.score) ∧
      (HybridSearchEngine.searchMerge fuse items query options).Pairwise
        (fun a b => b.score ≤ a.score)) ∧
    (∀ m, options.minScore = some m →
      (∀ r ∈ HybridSearchEngine.search fuse items query options, m ≤ r.score) ∧
      (∀ r ∈ HybridSearchEngine.searchMerge fuse items query options, m ≤ r.score)) ∧
    (∀ n, options.maxResults = some n → n ≠ 0 →
      (HybridSearchEngine.search fuse items query options =
        (HybridSearchEngine.search fuse items query
          { options with maxResults := none }).take n) ∧
      (HybridSearchEngine.searchMerge fuse items query options =
        (HybridSearchEngine.searchMerge fuse items query
          { options with maxResults := none }).take n) ∧
      (HybridSearchEngine.search fuse items query options).length ≤ n ∧
      (HybridSearchEngine.searchMerge fuse items query options).length ≤ n) := by
  refine ⟨⟨search_sorted fuse items query options, searchMerge_sorted fuse items query options⟩,
    ?_, ?_⟩
  · intro m hm
    exact ⟨search_minScore fuse items query options m hm,
      searchMerge_minScore fuse items query options m hm⟩
  · intro n hn h0
    have h1 := search_take fuse items query options n hn h0
    have h2 := searchMerge_take fuse items query options n hn h0
    refine ⟨h1, h2, ?_, ?_⟩
    · rw [h1]; exact List.length_take_le n _
    · rw [h2]; exact List.length_take_le n _

/-- C6 witness: truncation at a concrete catalog with `maxResults = 1`. -/
theorem claimC6_witness :
    HybridSearchEngine.search fuseStub catalogC5 "zanahoria" { maxResults := some 1 } =
      (HybridSearchEngine.search fuseStub catalogC5 "zanahoria" {}).take 1 :=
  ((claimC6_amended fuseStub catalogC5 "zanahoria"
    { maxResults := some 1 }).2.2 1 rfl (by decide)).1

/-- C7: an empty or whitespace-only query returns the empty result list
from both engines, for every item set, option set and Fuse instance. -/
theorem claimC7 (fuse : String → List FuseResult) (items : List Searchable)
    (query : String) (options : SearchOptions) (h : trimJS query.data = []) :
    HybridSearchEngine.search fuse items query options = [] ∧
    HybridSearchEngine.searchMerge fuse items query options = [] := by
  constructor
  · simp [HybridSearchEngine.search, h]
  · simp [HybridSearchEngine.searchMerge, h]

/-- C7 witness: `search("")` and `search("   ")` both return the empty
sequence on a concrete catalog. -/
theorem claimC7_witness :
    (HybridSearchEngine.search fuseStub catalogC5 "   " {} = [] ∧
      HybridSearchEngine.searchMerge fuseStub catalogC5 "   " {} = []) ∧
    (HybridSearchEngine.search fuseStub catalogC5 "" {} = [] ∧
      HybridSearchEngine.searchMerge fuseStub catalogC5 "" {} = []) :=
  ⟨claimC7 fuseStub catalogC5 "   " {} (by decide),
    claimC7 fuseStub catalogC5 "" {} (by decide)⟩

/-- C8: for every input term, findSynonyms on the built index returns at
most one match — exactly one when the normalized term is a key of the
index, and none otherwise (an empty list, never an error). -/
theorem claimC8 (term : String) :
    (SynonymService.findSynonyms searchIndex₁ term).length ≤ 1 ∧
    ((SynonymService.findSynonyms searchIndex₁ term).length = 1 ↔
      (objGet searchIndex₁ (TextNormalizationService.normalize term)).isSome = true) := by
  by_cases ht : (trimJS term.data).isEmpty = true
  · have hnil : trimJS term.data = [] := by simpa using ht
    have hnorm := normalize_of_trim_empty hnil
    rw [SynonymService.findSynonyms, if_pos ht, hnorm]
    refine ⟨by simp, ?_⟩
    have hempty : (objGet searchIndex₁ "").isSome = false := by decide
    simp [hempty]
  · rw [SynonymService.findSynonyms, if_neg ht]
    cases hg : objGet searchIndex₁ (TextNormalizationService.normalize term) with
    | none => simp [hg]
    | some e => simp [hg]

/-- The specification's description of findAllVariations: every index
entry whose stored canonical term normalizes to the same value as the
normalized query, excluding the canonical entry itself (the entry keyed
by the lowercased canonical term). -/
def findAllVariationsSpec (idx : List (String × SynonymEntry))
    (canonicalTerm : String) : List SynonymMatch :=
  let normalizedCanonical := TextNormalizationService.normalize canonicalTerm
  (idx.filter (fun p =>
      TextNormalizationService.normalize p.2.canonical = normalizedCanonical ∧
      p.1 ≠ jsToLowerStr p.2.canonical)).map
    (fun p => ⟨p.2.canonical, p.1, p.2.confidence, p.2.regionInfo⟩)

/-- C9: on the built index, findAllVariations returns exactly the entries
whose stored canonical term normalizes like the normalized query, with
the entry keyed by the canonical term itself excluded — the code's
exclusion by the normalized query coincides with the spec's exclusion of
the canonical entry because every canonical term in the dataset is its
own normalization. -/
theorem claimC9 (canonicalTerm : String) :
    SynonymService.findAllVariations searchIndex₁ canonicalTerm =
      findAllVariationsSpec searchIndex₁ canonicalTerm := by
  have hkey : ∀ p ∈ searchIndex₁,
      jsToLowerStr p.2.canonical = TextNormalizationService.normalize p.2.canonical := by
    decide
  simp only [SynonymService.findAllVariations, findAllVariationsSpec]
  congr 1
  apply List.filter_congr
  intro p hp
  have h := hkey p hp
  simp only [decide_eq_decide]
  constructor
  · rintro ⟨h1, h2⟩
    refine ⟨h1, ?_⟩
    rw [h, h1]
    exact h2
  · rintro ⟨h1, h2⟩
    refine ⟨h1, ?_⟩
    rw [← h1, ← h]
    exact h2

/-- C10: a supplied filter whose type has no registered definition is
silently skipped — the applied-filters list is exactly the registered
filters in supplied order, and the whole query result is the same as if
only the registered filters had been supplied. -/
theorem claimC10
    (filterRegistry : String → Option (List Searchable → FilterCriteria → List Searchable))
    (fieldVal : Searchable → String → ℚ) (items : List Searchable)
    (options : QueryOptions) (fs : List FilterCriteria)
    (h : options.filters = some fs) :
    (QueryEngine.executeQuery filterRegistry fieldVal items options).appliedFilters =
      fs.filter (fun f => (filterRegistry f.type).isSome) ∧
    QueryEngine.executeQuery filterRegistry fieldVal items options =
      QueryEngine.executeQuery filterRegistry fieldVal items
        { options with
          filters := some (fs.filter (fun f => (filterRegistry f.type).isSome)) } := by
  constructor
  · simp only [QueryEngine.executeQuery, h]
    rw [applyFiltersStep_snd]
    simp
  · have hidem : (fs.filter (fun f => (filterRegistry f.type).isSome)).filter
        (fun f => (filterRegistry f.type).isSome) =
        fs.filter (fun f => (filterRegistry f.type).isSome) :=
      List.filter_eq_self.2 (fun f hf => (List.mem_filter.1 hf).2)
    simp only [QueryEngine.executeQuery, h]
    rw [applyFiltersStep_skip, ← hidem, ← applyFiltersStep_skip]

/-- C10 witness: an unregistered filter type is skipped and absent from
appliedFilters at a concrete registry and filter list. -/
theorem claimC10_witness :
    (QueryEngine.executeQuery
        (fun t => if t = "category" then some (fun l _ => l) else none)
        (fun _ _ => 0) catalogC5
        { filters := some [⟨"unregistered", "x"⟩, ⟨"category", "y"⟩] }).appliedFilters =
      [⟨"category", "y"⟩] := by
  have h := (claimC10 (fun t => if t = "category" then some (fun l _ => l) else none)
    (fun _ _ => 0) catalogC5
    { filters := some [⟨"unregistered", "x"⟩, ⟨"category", "y"⟩] }
    [⟨"unregistered", "x"⟩, ⟨"category", "y"⟩] rfl).1
  rw [h]
  decide
